import Mathlib

/-!
Verification development for the moltis gateway core: the tool-using agent
loop (`crates/agents/src/runner.rs`), the OpenAI-compatible provider adapter
and SSE stream decoder (`crates/agents/src/providers/openai.rs`), and the
sandbox router and backends (`crates/tools/src/sandbox.rs`).

Rust code is shallowly embedded: stateful loops become explicit state
passing, fallible code returns `Except`, JSON values become an inductive
`Json` type, and byte strings are modelled one character per byte.
Code of the repository that is only visible through its callers
(`model.rs`, `openai_compat.rs`, `exec.rs`, `tool_registry.rs`) is
modelled from the specification and marked as such.
-/

namespace Moltis

/-- Structured JSON value, embedding `serde_json::Value`.  Objects keep
field insertion order as an association list. -/
inductive Json where
  | null : Json
  | bool (b : Bool) : Json
  | num (n : Int) : Json
  | str (s : String) : Json
  | arr (items : List Json) : Json
  | obj (fields : List (String × Json)) : Json
deriving Repr

/-- Field lookup on a JSON object (`value.get(key)`); `none` on non-objects. -/
def Json.getField : Json → String → Option Json
  | .obj fields, key => fields.lookup key
  | _, _ => none

/-- Replace or append a field of a JSON object (`value[key] = v`); identity
on non-objects (the Rust code only indexes into objects). -/
def Json.setField : Json → String → Json → Json
  | .obj fields, key, v =>
      if (fields.lookup key).isSome then
        .obj (fields.map (fun p => if p.1 = key then (p.1, v) else p))
      else
        .obj (fields ++ [(key, v)])
  | j, _, _ => j

/-- Escape a string for JSON rendering (quote and backslash). -/
def jsonEscape (s : String) : String :=
  String.join (s.toList.map (fun c =>
    if c = '"' then "\\\"" else if c = '\\' then "\\\\" else String.mk [c]))

mutual

/-- Render a JSON value to its serialized text (`serde_json::Value::to_string`). -/
def Json.render : Json → String
  | .null => "null"
  | .bool b => if b then "true" else "false"
  | .num n => toString n
  | .str s => "\"" ++ jsonEscape s ++ "\""
  | .arr items => "[" ++ Json.renderArr items ++ "]"
  | .obj fields => "\x7b" ++ Json.renderObj fields ++ "\x7d"

/-- Comma-separated rendering of array elements. -/
def Json.renderArr : List Json → String
  | [] => ""
  | [j] => j.render
  | j :: rest => j.render ++ "," ++ Json.renderArr rest

/-- Comma-separated rendering of object fields. -/
def Json.renderObj : List (String × Json) → String
  | [] => ""
  | [p] => "\"" ++ jsonEscape p.1 ++ "\":" ++ p.2.render
  | p :: rest => "\"" ++ jsonEscape p.1 ++ "\":" ++ p.2.render ++ "," ++ Json.renderObj rest

end

/-- Token-count usage block (`crates/agents/src/model.rs::Usage`, shape fixed
by its uses in `runner.rs` and `openai.rs`). -/
structure Usage where
  inputTokens : Nat := 0
  outputTokens : Nat := 0
  cacheReadTokens : Nat := 0
  cacheWriteTokens : Nat := 0
deriving Repr, DecidableEq

/-- A tool-call request from the model (`model.rs::ToolCall`, shape fixed by
`runner.rs`: fields `id`, `name`, `arguments`). -/
structure ToolCall where
  id : String
  name : String
  arguments : Json
deriving Repr

/-- Chat message. Modelled from the spec: `model.rs::ChatMessage` is a tagged
variant over system / user / assistant / tool; assistant messages may carry
tool-call requests, tool messages carry the answered `tool_call_id`.  The
runner's raw-JSON history entries are embedded with the same four shapes. -/
inductive Message where
  | system (content : String) : Message
  | user (content : String) : Message
  | assistant (content : Option String) (toolCalls : List ToolCall) : Message
  | tool (toolCallId : String) (content : Json) : Message
deriving Repr

/-- Completion response from a provider (`model.rs::CompletionResponse`,
shape fixed by `runner.rs` and `openai.rs`). -/
structure CompletionResponse where
  text : Option String
  toolCalls : List ToolCall
  usage : Usage
deriving Repr

/-- Result of running the agent loop (`runner.rs::AgentRunResult`). -/
structure AgentRunResult where
  text : String
  iterations : Nat
  toolCallsMade : Nat
deriving Repr, DecidableEq

/-- Events emitted during the agent run (`runner.rs::RunnerEvent`). -/
inductive RunnerEvent where
  | thinking : RunnerEvent
  | thinkingDone : RunnerEvent
  | toolCallStart (id nm : String) : RunnerEvent
  | toolCallEnd (id nm : String) (success : Bool) : RunnerEvent
  | textDelta (s : String) : RunnerEvent
  | iteration (n : Nat) : RunnerEvent
deriving Repr

/-- A registered tool.  Modelled from the spec: `tool_registry.rs` entries
carry a unique name and an `execute(arguments) → result-or-error` body
(schema and description omitted: the runner only reads `name` and calls
`execute`). -/
structure ToolEntry where
  name : String
  execute : Json → Except String Json

/-- Registry lookup by name (`ToolRegistry::get`); names are unique, so the
first match is the entry. -/
def registryGet (tools : List ToolEntry) (nm : String) : Option ToolEntry :=
  tools.find? (fun t => t.name = nm)

/-- A provider oracle: the response `complete` gives to the n-th call (0-based)
with the history it was shown.  `Except.error` models a failed provider call. -/
def Provider := Nat → List Message → Except String CompletionResponse

/-- Maximum number of tool-call loop iterations (`runner.rs::MAX_ITERATIONS`). -/
def MAX_ITERATIONS : Nat := 25

/-- One tool-call execution inside the loop body (`runner.rs` lines 147-210):
returns the appended tool message and the emitted events. -/
def execOne (tools : List ToolEntry) (tc : ToolCall) : Message × List RunnerEvent :=
  match registryGet tools tc.name with
  | some tool =>
      match tool.execute tc.arguments with
      | .ok v =>
          (Message.tool tc.id (Json.obj [("result", v)]),
           [RunnerEvent.toolCallStart tc.id tc.name,
            RunnerEvent.toolCallEnd tc.id tc.name true])
      | .error e =>
          (Message.tool tc.id (Json.obj [("error", Json.str e)]),
           [RunnerEvent.toolCallStart tc.id tc.name,
            RunnerEvent.toolCallEnd tc.id tc.name false])
  | none =>
      (Message.tool tc.id (Json.obj [("error", Json.str ("unknown tool: " ++ tc.name))]),
       [RunnerEvent.toolCallStart tc.id tc.name,
        RunnerEvent.toolCallEnd tc.id tc.name false])

/-- Sequential execution of a turn's tool calls in request order
(`for tc in &response.tool_calls`): the tool messages and events, in order. -/
def execCalls (tools : List ToolEntry) : List ToolCall → List Message × List RunnerEvent
  | [] => ([], [])
  | tc :: rest =>
      let r := execOne tools tc
      let rs := execCalls tools rest
      (r.1 :: rs.1, r.2 ++ rs.2)

/-- The agent loop (`runner.rs::run_agent_loop`, lines 60-212).  `fuel` is the
number of remaining allowed iterations; it reaches 0 exactly when the Rust
counter would exceed `MAX_ITERATIONS`, producing the fatal error.  Returns the
final history, the emitted events, and the loop result. -/
def runLoopAux (provider : Provider) (tools : List ToolEntry) :
    List Message → List RunnerEvent → Nat → Nat → Nat →
    List Message × List RunnerEvent × Except String AgentRunResult
  | msgs, evs, _, _, 0 => (msgs, evs, .error "agent loop exceeded max iterations")
  | msgs, evs, iterations, total, fuel + 1 =>
      let iter := iterations + 1
      let evs := evs ++ [RunnerEvent.iteration iter, RunnerEvent.thinking]
      match provider iterations msgs with
      | .error e => (msgs, evs, .error e)
      | .ok resp =>
          let evs := evs ++ [RunnerEvent.thinkingDone]
          if resp.toolCalls.isEmpty then
            (msgs, evs,
             .ok { text := resp.text.getD "", iterations := iter, toolCallsMade := total })
          else
            let r := execCalls tools resp.toolCalls
            runLoopAux provider tools
              (msgs ++ Message.assistant resp.text resp.toolCalls :: r.1)
              (evs ++ r.2) iter (total + resp.toolCalls.length) fuel

/-- `runner.rs::run_agent_loop`: history starts as
`[system(system_prompt), user(user_message)]`. -/
def runAgentLoop (provider : Provider) (tools : List ToolEntry)
    (systemPrompt userMessage : String) :
    List Message × List RunnerEvent × Except String AgentRunResult :=
  runLoopAux provider tools
    [Message.system systemPrompt, Message.user userMessage] [] 0 0 MAX_ITERATIONS

/-- Is the message a tool-result message? -/
def Message.isToolMsg : Message → Bool
  | .tool _ _ => true
  | _ => false

/-- The tool messages `ms` answer the tool calls `tcs`: same count and, in
order, the i-th tool message's `tool_call_id` equals the i-th call's `id`. -/
def blockMatches : List ToolCall → List Message → Bool
  | [], [] => true
  | tc :: tcs, Message.tool cid _ :: ms => cid == tc.id && blockMatches tcs ms
  | _, _ => false

/-- History wellformedness (spec section 8, first invariant): every maximal
run of tool messages immediately follows an assistant message and answers
that assistant's tool calls in order; a tool message never appears without
its assistant request. -/
def historyWf : List Message → Bool
  | [] => true
  | Message.assistant _ tcs :: rest =>
      blockMatches tcs (rest.take tcs.length) && historyWf (rest.drop tcs.length)
  | Message.tool _ _ :: _ => false
  | Message.system _ :: rest => historyWf rest
  | Message.user _ :: rest => historyWf rest
termination_by l => l.length
decreasing_by
  all_goals simp only [List.length_cons, List.length_drop]
  all_goals omega

theorem blockMatches_length {tcs : List ToolCall} {ms : List Message}
    (h : blockMatches tcs ms = true) : ms.length = tcs.length := by
  induction tcs generalizing ms with
  | nil => cases ms with
    | nil => rfl
    | cons m ms => simp [blockMatches] at h
  | cons tc tcs ih =>
    cases ms with
    | nil => simp [blockMatches] at h
    | cons m ms =>
      cases m with
      | tool cid c =>
        simp only [blockMatches, Bool.and_eq_true] at h
        simp [ih h.2]
      | system c => simp [blockMatches] at h
      | user c => simp [blockMatches] at h
      | assistant c tcs2 => simp [blockMatches] at h

theorem historyWf_append {b : List Message} (hb : historyWf b = true) :
    ∀ a, historyWf a = true → historyWf (a ++ b) = true := by
  intro a
  induction a using historyWf.induct with
  | case1 => intro _; simpa using hb
  | case2 c tcs rest ihb =>
    intro h
    simp only [historyWf, Bool.and_eq_true] at h
    have hlen : tcs.length ≤ rest.length := by
      have := blockMatches_length h.1
      simp only [List.length_take] at this
      omega
    simp only [List.cons_append, historyWf,
      List.take_append_of_le_length hlen, List.drop_append_of_le_length hlen,
      Bool.and_eq_true]
    exact ⟨h.1, ihb h.2⟩
  | case3 cid c rest => intro h; simp [historyWf] at h
  | case4 c rest ihb =>
    intro h
    simp only [historyWf] at h
    simpa only [List.cons_append, historyWf] using ihb h
  | case5 c rest ihb =>
    intro h
    simp only [historyWf] at h
    simpa only [List.cons_append, historyWf] using ihb h

theorem execOne_fst (tools : List ToolEntry) (tc : ToolCall) :
    ∃ content, (execOne tools tc).1 = Message.tool tc.id content := by
  unfold execOne
  cases h : registryGet tools tc.name with
  | none => exact ⟨_, rfl⟩
  | some tool =>
    cases h2 : tool.execute tc.arguments with
    | ok v => exact ⟨Json.obj [("result", v)], by simp [h2]⟩
    | error e => exact ⟨Json.obj [("error", Json.str e)], by simp [h2]⟩

theorem execCalls_length (tools : List ToolEntry) :
    ∀ tcs : List ToolCall, (execCalls tools tcs).1.length = tcs.length := by
  intro tcs
  induction tcs with
  | nil => rfl
  | cons tc rest ih => simp [execCalls, ih]

theorem execCalls_blockMatches (tools : List ToolEntry) :
    ∀ tcs : List ToolCall, blockMatches tcs (execCalls tools tcs).1 = true := by
  intro tcs
  induction tcs with
  | nil => rfl
  | cons tc rest ih =>
    obtain ⟨content, hc⟩ := execOne_fst tools tc
    simp [execCalls, hc, blockMatches, ih]

theorem historyWf_block (tools : List ToolEntry) (c : Option String)
    (tcs : List ToolCall) :
    historyWf (Message.assistant c tcs :: (execCalls tools tcs).1) = true := by
  have hlen := execCalls_length tools tcs
  simp only [historyWf, Bool.and_eq_true]
  constructor
  · rw [← hlen, List.take_length]
    exact execCalls_blockMatches tools tcs
  · rw [← hlen, List.drop_length]
    simp [historyWf]

theorem runLoopAux_historyWf (provider : Provider) (tools : List ToolEntry) :
    ∀ (fuel : Nat) (msgs : List Message) (evs : List RunnerEvent)
      (iterations total : Nat), historyWf msgs = true →
      historyWf (runLoopAux provider tools msgs evs iterations total fuel).1 = true := by
  intro fuel
  induction fuel with
  | zero => intro msgs evs iterations total h; simpa [runLoopAux] using h
  | succ n ih =>
    intro msgs evs iterations total h
    simp only [runLoopAux]
    cases hp : provider iterations msgs with
    | error e => simpa using h
    | ok resp =>
      by_cases hte : resp.toolCalls.isEmpty
      · simpa [hte] using h
      · simp only [hte, if_false, Bool.false_eq_true]
        apply ih
        exact historyWf_append (historyWf_block tools resp.text resp.toolCalls) msgs h

/-- Turn-block structure of the history after the initial system and user
messages: each loop iteration that carried tool calls contributed exactly one
assistant message followed by exactly one tool message per tool call. -/
inductive TurnBlocks : List Message → Prop
  | nil : TurnBlocks []
  | cons (c : Option String) (tcs : List ToolCall) (toolMsgs rest : List Message) :
      tcs ≠ [] →
      toolMsgs.length = tcs.length →
      (∀ m ∈ toolMsgs, m.isToolMsg = true) →
      TurnBlocks rest →
      TurnBlocks (Message.assistant c tcs :: (toolMsgs ++ rest))

theorem TurnBlocks_append {a b : List Message}
    (ha : TurnBlocks a) (hb : TurnBlocks b) : TurnBlocks (a ++ b) := by
  induction ha with
  | nil => simpa using hb
  | cons c tcs toolMsgs rest hne hlen htool _ ih =>
    have : Message.assistant c tcs :: (toolMsgs ++ rest) ++ b =
        Message.assistant c tcs :: (toolMsgs ++ (rest ++ b)) := by
      simp [List.append_assoc]
    rw [this]
    exact TurnBlocks.cons c tcs toolMsgs (rest ++ b) hne hlen htool ih

theorem execCalls_allTool (tools : List ToolEntry) :
    ∀ tcs : List ToolCall, ∀ m ∈ (execCalls tools tcs).1, m.isToolMsg = true := by
  intro tcs
  induction tcs with
  | nil => intro m hm; simp [execCalls] at hm
  | cons tc rest ih =>
    intro m hm
    obtain ⟨content, hc⟩ := execOne_fst tools tc
    simp only [execCalls, List.mem_cons] at hm
    rcases hm with h | h
    · rw [h, hc]; rfl
    · exact ih m h

theorem TurnBlocks_block (tools : List ToolEntry) (c : Option String)
    {tcs : List ToolCall} (hne : tcs ≠ []) :
    TurnBlocks (Message.assistant c tcs :: (execCalls tools tcs).1) := by
  have h := TurnBlocks.cons c tcs (execCalls tools tcs).1 [] hne
    (execCalls_length tools tcs) (execCalls_allTool tools tcs) TurnBlocks.nil
  simpa using h

theorem runLoopAux_extends (provider : Provider) (tools : List ToolEntry) :
    ∀ (fuel : Nat) (msgs : List Message) (evs : List RunnerEvent)
      (iterations total : Nat), ∃ suffix,
      (runLoopAux provider tools msgs evs iterations total fuel).1 = msgs ++ suffix := by
  intro fuel
  induction fuel with
  | zero => intro msgs evs iterations total; exact ⟨[], by simp [runLoopAux]⟩
  | succ n ih =>
    intro msgs evs iterations total
    simp only [runLoopAux]
    cases hp : provider iterations msgs with
    | error e => exact ⟨[], by simp⟩
    | ok resp =>
      by_cases hte : resp.toolCalls.isEmpty
      · exact ⟨[], by simp [hte]⟩
      · simp only [hte, if_false, Bool.false_eq_true]
        obtain ⟨suffix, hs⟩ := ih
          (msgs ++ Message.assistant resp.text resp.toolCalls :: (execCalls tools resp.toolCalls).1)
          (evs ++ [RunnerEvent.iteration (iterations + 1), RunnerEvent.thinking] ++
            [RunnerEvent.thinkingDone] ++ (execCalls tools resp.toolCalls).2)
          (iterations + 1) (total + resp.toolCalls.length)
        exact ⟨Message.assistant resp.text resp.toolCalls ::
          (execCalls tools resp.toolCalls).1 ++ suffix, by rw [hs]; simp⟩

theorem runLoopAux_turnBlocks (provider : Provider) (tools : List ToolEntry) :
    ∀ (fuel : Nat) (base rest : List Message) (evs : List RunnerEvent)
      (iterations total : Nat), TurnBlocks rest →
      ∃ rest2,
        (runLoopAux provider tools (base ++ rest) evs iterations total fuel).1 =
          base ++ rest2 ∧ TurnBlocks rest2 := by
  intro fuel
  induction fuel with
  | zero => intro base rest evs iterations total h; exact ⟨rest, by simp [runLoopAux], h⟩
  | succ n ih =>
    intro base rest evs iterations total h
    simp only [runLoopAux]
    cases hp : provider iterations (base ++ rest) with
    | error e => exact ⟨rest, by simp, h⟩
    | ok resp =>
      by_cases hte : resp.toolCalls.isEmpty
      · exact ⟨rest, by simp [hte], h⟩
      · simp only [hte, if_false, Bool.false_eq_true]
        have hne : resp.toolCalls ≠ [] := by
          intro hnil; rw [hnil] at hte; exact hte rfl
        have hblock : TurnBlocks (rest ++
            (Message.assistant resp.text resp.toolCalls ::
              (execCalls tools resp.toolCalls).1)) :=
          TurnBlocks_append h (TurnBlocks_block tools resp.text hne)
        have hre : base ++ rest ++ Message.assistant resp.text resp.toolCalls ::
            (execCalls tools resp.toolCalls).1 =
            base ++ (rest ++ (Message.assistant resp.text resp.toolCalls ::
              (execCalls tools resp.toolCalls).1)) := by
          simp [List.append_assoc]
        rw [hre]
        exact ih base _ _ (iterations + 1) (total + resp.toolCalls.length) hblock

theorem runLoopAux_allToolCalls (provider : Provider) (tools : List ToolEntry)
    (hall : ∀ n m, ∃ r, provider n m = .ok r ∧ r.toolCalls ≠ []) :
    ∀ (fuel : Nat) (msgs : List Message) (evs : List RunnerEvent)
      (iterations total : Nat),
      (runLoopAux provider tools msgs evs iterations total fuel).2.2 =
        .error "agent loop exceeded max iterations" := by
  intro fuel
  induction fuel with
  | zero => intro msgs evs iterations total; simp [runLoopAux]
  | succ n ih =>
    intro msgs evs iterations total
    obtain ⟨r, hr, hne⟩ := hall iterations msgs
    have hte : r.toolCalls.isEmpty = false := by
      cases hcs : r.toolCalls with
      | nil => exact absurd hcs hne
      | cons a as => rfl
    simp only [runLoopAux, hr, hte, if_false, Bool.false_eq_true]
    exact ih _ _ _ _

theorem runLoopAux_ok_iterations (provider : Provider) (tools : List ToolEntry) :
    ∀ (fuel : Nat) (msgs : List Message) (evs : List RunnerEvent)
      (iterations total : Nat) (r : AgentRunResult),
      (runLoopAux provider tools msgs evs iterations total fuel).2.2 = .ok r →
      iterations < r.iterations ∧ r.iterations ≤ iterations + fuel := by
  intro fuel
  induction fuel with
  | zero => intro msgs evs iterations total r h; simp [runLoopAux] at h
  | succ n ih =>
    intro msgs evs iterations total r h
    cases hp : provider iterations msgs with
    | error e => simp [runLoopAux, hp] at h
    | ok resp =>
      by_cases hte : resp.toolCalls.isEmpty
      · simp only [runLoopAux, hp, hte, if_true] at h
        injection h with h2
        subst h2
        exact ⟨Nat.lt_succ_self _,
          by show iterations + 1 ≤ iterations + (n + 1); omega⟩
      · simp only [runLoopAux, hp, hte, if_false, Bool.false_eq_true] at h
        have := ih _ _ _ _ r h
        omega

theorem runLoopAux_agree (provider provider2 : Provider) (tools : List ToolEntry) :
    ∀ (fuel : Nat) (msgs : List Message) (evs : List RunnerEvent)
      (iterations total : Nat),
      (∀ n m, n < iterations + fuel → provider n m = provider2 n m) →
      runLoopAux provider tools msgs evs iterations total fuel =
        runLoopAux provider2 tools msgs evs iterations total fuel := by
  intro fuel
  induction fuel with
  | zero => intro msgs evs iterations total _; simp [runLoopAux]
  | succ n ih =>
    intro msgs evs iterations total hagree
    have hcall : provider iterations msgs = provider2 iterations msgs :=
      hagree iterations msgs (by omega)
    simp only [runLoopAux, hcall]
    cases provider2 iterations msgs with
    | error e => rfl
    | ok resp =>
      by_cases hte : resp.toolCalls.isEmpty
      · simp [hte]
      · simp only [hte, if_false, Bool.false_eq_true]
        exact ih _ _ _ _ (fun k m hk => hagree k m (by omega))

theorem runLoopAux_error_source (provider : Provider) (tools : List ToolEntry) :
    ∀ (fuel : Nat) (msgs : List Message) (evs : List RunnerEvent)
      (iterations total : Nat) (m : String),
      (runLoopAux provider tools msgs evs iterations total fuel).2.2 = .error m →
      m = "agent loop exceeded max iterations" ∨
        ∃ n msgs2, provider n msgs2 = .error m := by
  intro fuel
  induction fuel with
  | zero =>
    intro msgs evs iterations total m h
    simp only [runLoopAux] at h
    exact Or.inl (Except.error.inj h).symm
  | succ n ih =>
    intro msgs evs iterations total m h
    cases hp : provider iterations msgs with
    | error e =>
      simp only [runLoopAux, hp] at h
      exact Or.inr ⟨iterations, msgs, by rw [hp, Except.error.inj h]⟩
    | ok resp =>
      by_cases hte : resp.toolCalls.isEmpty
      · simp [runLoopAux, hp, hte] at h
      · simp only [runLoopAux, hp, hte, if_false, Bool.false_eq_true] at h
        exact ih _ _ _ _ m h

theorem execCalls_eq_map (tools : List ToolEntry) :
    ∀ tcs : List ToolCall, execCalls tools tcs =
      (tcs.map (fun c => (execOne tools c).1),
       (tcs.map (fun c => (execOne tools c).2)).flatten) := by
  intro tcs
  induction tcs with
  | nil => rfl
  | cons a as ih => simp [execCalls, ih]

/-- A provider that requests a tool call on every call (used as witness input). -/
def providerAllTools : Provider := fun _ _ =>
  .ok { text := none,
        toolCalls := [{ id := "call_1", name := "echo_tool", arguments := Json.null }],
        usage := {} }

/-- A provider that immediately answers with text and no tool calls. -/
def providerText : Provider := fun _ _ =>
  .ok { text := some "Hello!", toolCalls := [], usage := {} }

/-- C1: for every history produced by a run of the agent loop, every tool
message's `tool_call_id` equals the id of the corresponding entry of the
`tool_calls` array of the immediately preceding assistant message, and within
each turn the tool messages appear in exactly the order of those tool calls
(`historyWf` demands, block by block, count and id equality in order). -/
theorem claim_C1_history_tool_ids (provider : Provider) (tools : List ToolEntry)
    (systemPrompt userMessage : String) :
    historyWf (runAgentLoop provider tools systemPrompt userMessage).1 = true := by
  apply runLoopAux_historyWf
  simp [historyWf]

/-- C2: the loop makes at most 25 provider calls.  If the provider answers
every call with a non-empty tool-call list, the run fails with the fatal
error "agent loop exceeded max iterations"; every successful run reports
between 1 and 25 iterations; and the run never consults the provider beyond
call index 24 (two providers that agree on the first 25 calls produce
identical runs). -/
theorem claim_C2_iteration_cap (providerA providerB providerC providerD : Provider)
    (tools : List ToolEntry) (sp um : String) :
    ((∀ n m, ∃ r, providerA n m = .ok r ∧ r.toolCalls ≠ []) →
      (runAgentLoop providerA tools sp um).2.2 =
        .error "agent loop exceeded max iterations") ∧
    (∀ r, (runAgentLoop providerB tools sp um).2.2 = .ok r →
      1 ≤ r.iterations ∧ r.iterations ≤ MAX_ITERATIONS) ∧
    ((∀ n m, n < MAX_ITERATIONS → providerC n m = providerD n m) →
      runAgentLoop providerC tools sp um = runAgentLoop providerD tools sp um) := by
  refine ⟨fun hall => runLoopAux_allToolCalls providerA tools hall _ _ _ _ _, ?_, ?_⟩
  · intro r h
    have hb := runLoopAux_ok_iterations providerB tools MAX_ITERATIONS _ _ 0 0 r h
    exact ⟨hb.1, by simpa using hb.2⟩
  · intro hag
    exact runLoopAux_agree providerC providerD tools MAX_ITERATIONS _ _ 0 0
      (fun n m hn => hag n m (by simpa using hn))

theorem claim_C2_witness :
    ((runAgentLoop providerAllTools [] "s" "u").2.2 =
      .error "agent loop exceeded max iterations") ∧
    (1 ≤ (1 : Nat) ∧ (1 : Nat) ≤ MAX_ITERATIONS) ∧
    runAgentLoop providerAllTools [] "s" "u" =
      runAgentLoop providerAllTools [] "s" "u" := by
  have h := claim_C2_iteration_cap providerAllTools providerText
    providerAllTools providerAllTools [] "s" "u"
  refine ⟨h.1 (fun n m => ⟨_, rfl, by simp [providerAllTools]⟩), ?_,
    h.2.2 (fun _ _ _ => rfl)⟩
  have hok : (runAgentLoop providerText [] "s" "u").2.2 =
      .ok { text := "Hello!", iterations := 1, toolCallsMade := 0 } := rfl
  exact h.2.1 { text := "Hello!", iterations := 1, toolCallsMade := 0 } hok

/-- C3: tool failures and unknown tools are never loop-fatal.  An unregistered
name produces a tool message whose content is the object with single field
"error" mapped to "unknown tool: " ++ name plus a `ToolCallEnd` with
`success = false`; a tool execution error likewise; tool calls in a turn are
processed sequentially in request order (the messages and events are the
in-order concatenation of the per-call results); and the run can only fail
with the iteration-cap error or an error returned by the provider itself. -/
theorem claim_C3_tool_errors_not_fatal (tools : List ToolEntry) (tc : ToolCall)
    (tcs : List ToolCall) (provider : Provider) (sp um : String) :
    (registryGet tools tc.name = none →
      execOne tools tc =
        (Message.tool tc.id
           (Json.obj [("error", Json.str ("unknown tool: " ++ tc.name))]),
         [RunnerEvent.toolCallStart tc.id tc.name,
          RunnerEvent.toolCallEnd tc.id tc.name false])) ∧
    (∀ t e, registryGet tools tc.name = some t →
      t.execute tc.arguments = .error e →
      execOne tools tc =
        (Message.tool tc.id (Json.obj [("error", Json.str e)]),
         [RunnerEvent.toolCallStart tc.id tc.name,
          RunnerEvent.toolCallEnd tc.id tc.name false])) ∧
    (execCalls tools tcs =
      (tcs.map (fun c => (execOne tools c).1),
       (tcs.map (fun c => (execOne tools c).2)).flatten)) ∧
    (∀ m, (runAgentLoop provider tools sp um).2.2 = .error m →
      m = "agent loop exceeded max iterations" ∨
        ∃ n msgs2, provider n msgs2 = .error m) := by
  refine ⟨fun h => by simp [execOne, h],
    fun t e h h2 => by simp [execOne, h, h2],
    execCalls_eq_map tools tcs, ?_⟩
  intro m h
  exact runLoopAux_error_source provider tools MAX_ITERATIONS _ _ 0 0 m h

/-- An unknown-tool call, for witnesses. -/
def toolCallUnknown : ToolCall :=
  { id := "call_x", name := "no_such_tool", arguments := Json.null }

/-- A provider whose every call fails with "boom" (used as witness input). -/
def providerFails : Provider := fun _ _ => .error "boom"

theorem claim_C3_witness :
    execOne [] toolCallUnknown =
      (Message.tool "call_x"
         (Json.obj [("error", Json.str "unknown tool: no_such_tool")]),
       [RunnerEvent.toolCallStart "call_x" "no_such_tool",
        RunnerEvent.toolCallEnd "call_x" "no_such_tool" false]) ∧
    execCalls [] [toolCallUnknown] =
      ([toolCallUnknown].map (fun c => (execOne [] c).1),
       ([toolCallUnknown].map (fun c => (execOne [] c).2)).flatten) ∧
    ("boom" = "agent loop exceeded max iterations" ∨
      ∃ n msgs2, providerFails n msgs2 = .error "boom") := by
  have h := claim_C3_tool_errors_not_fatal [] toolCallUnknown [toolCallUnknown]
    providerFails "s" "u"
  refine ⟨?_, h.2.2.1, h.2.2.2 "boom" rfl⟩
  have hu : registryGet [] toolCallUnknown.name = none := rfl
  simpa [toolCallUnknown] using h.1 hu

/-- C10: the history is append-only.  Every call of the loop body only
extends the history it was given; the full run's history starts with the
system message built from the system prompt and then the user message built
from the user message, followed by complete turn blocks: per tool-carrying
iteration exactly one assistant message and then exactly one tool message
per tool call of that assistant message. -/
theorem claim_C10_history_append_only (provider : Provider)
    (tools : List ToolEntry) (sp um : String) :
    (∀ (fuel : Nat) (msgs : List Message) (evs : List RunnerEvent)
        (iterations total : Nat), ∃ suffix,
        (runLoopAux provider tools msgs evs iterations total fuel).1 =
          msgs ++ suffix) ∧
    (∃ rest, (runAgentLoop provider tools sp um).1 =
        Message.system sp :: Message.user um :: rest ∧ TurnBlocks rest) := by
  refine ⟨runLoopAux_extends provider tools, ?_⟩
  obtain ⟨rest2, h1, h2⟩ := runLoopAux_turnBlocks provider tools MAX_ITERATIONS
    [Message.system sp, Message.user um] [] [] 0 0 TurnBlocks.nil
  refine ⟨rest2, ?_, h2⟩
  unfold runAgentLoop
  simpa using h1

/-- Stream events (`model.rs::StreamEvent`, shape fixed by `openai.rs` and
spec section 3). -/
inductive StreamEvent where
  | delta (s : String) : StreamEvent
  | toolCallStart (id nm : String) (index : Nat) : StreamEvent
  | toolCallArgumentsDelta (index : Nat) (chunk : String) : StreamEvent
  | toolCallComplete (index : Nat) : StreamEvent
  | done (u : Usage) : StreamEvent
  | errorEvent (msg : String) : StreamEvent
deriving Repr, DecidableEq

/-- Reassembly record for one in-flight tool call.  Modelled from the spec
(section 3): index maps to id, name and argument buffer. -/
structure ToolBuf where
  id : String
  nm : String
  args : String
deriving Repr, DecidableEq

/-- Modelled from the spec: `openai_compat.rs::StreamingToolState` — the
open (started, not yet completed) tool calls in reassembly order, the
indexes ever started, and the accumulated usage. -/
structure StreamingToolState where
  openCalls : List (Nat × ToolBuf) := []
  started : List Nat := []
  usage : Usage := {}
deriving Repr, DecidableEq

/-- One entry of `choices[0].delta.tool_calls` in a streaming chunk
(spec section 4.E). -/
structure ToolCallDelta where
  index : Nat
  id : Option String := none
  nm : Option String := none
  args : Option String := none
deriving Repr, DecidableEq

/-- Usage block of a streaming chunk (`prompt_tokens`, `completion_tokens`,
`prompt_tokens_details.cached_tokens`). -/
structure ChunkUsage where
  promptTokens : Nat := 0
  completionTokens : Nat := 0
  cachedTokens : Nat := 0
deriving Repr, DecidableEq

/-- A parsed chat-completion chunk.  Modelled from the spec (section 4.E);
the JSON text of a `data:` line is held structurally, since the parsing in
`openai_compat.rs` is not in view. -/
structure ChunkPayload where
  content : Option String := none
  toolCallDeltas : List ToolCallDelta := []
  finishReason : Option String := none
  usage : Option ChunkUsage := none
deriving Repr, DecidableEq

/-- The tool-call start step for one delta entry (spec section 4.E): if the
entry carries both `id` and `function.name` and the index has not been
started, emit `ToolCallStart` and seed the reassembly state. -/
def startPart (st : StreamingToolState) (e : ToolCallDelta) :
    StreamingToolState × List StreamEvent :=
  match e.id, e.nm with
  | some i, some n =>
      if e.index ∈ st.started then (st, [])
      else
        ({ st with
            openCalls := st.openCalls ++ [(e.index, { id := i, nm := n, args := "" })],
            started := st.started ++ [e.index] },
         [StreamEvent.toolCallStart i n e.index])
  | _, _ => (st, [])

/-- The argument-fragment step for one delta entry (spec section 4.E): append
the fragment to the open buffer for the index and emit
`ToolCallArgumentsDelta`; a fragment for an index that is not open is
dropped (an index may appear in a delta only after its start). -/
def argPart (st : StreamingToolState) (e : ToolCallDelta) :
    StreamingToolState × List StreamEvent :=
  match e.args with
  | some frag =>
      if (st.openCalls.lookup e.index).isSome then
        ({ st with openCalls := st.openCalls.map (fun p =>
             if p.1 = e.index then (p.1, { p.2 with args := p.2.args ++ frag }) else p) },
         [StreamEvent.toolCallArgumentsDelta e.index frag])
      else (st, [])
  | none => (st, [])

/-- Modelled from the spec: handling of one `delta.tool_calls` entry —
the start step, then the argument step. -/
def processToolCallDelta (st : StreamingToolState) (e : ToolCallDelta) :
    StreamingToolState × List StreamEvent :=
  let s := startPart st e
  let a := argPart s.1 e
  (a.1, s.2 ++ a.2)

/-- Sequential handling of a chunk's `delta.tool_calls` entries. -/
def processDeltas : StreamingToolState → List ToolCallDelta →
    StreamingToolState × List StreamEvent
  | st, [] => (st, [])
  | st, e :: rest =>
      let r := processToolCallDelta st e
      let rs := processDeltas r.1 rest
      (rs.1, r.2 ++ rs.2)

/-- Modelled from the spec: `openai_compat.rs::process_openai_sse_line` on a
successfully parsed chunk — a content fragment emits `Delta`; each tool-call
delta entry is applied in order; `finish_reason = "tool_calls"` emits
`ToolCallComplete` for every open index in reassembly order and closes them;
a usage block is accumulated into the pending usage without emitting. -/
def processChunk (st : StreamingToolState) (c : ChunkPayload) :
    StreamingToolState × List StreamEvent :=
  let contentEvs := match c.content with
    | some s => [StreamEvent.delta s]
    | none => []
  let d := processDeltas st c.toolCallDeltas
  let fin :=
    if c.finishReason = some "tool_calls" then
      ({ d.1 with openCalls := [] },
       d.1.openCalls.map (fun p => StreamEvent.toolCallComplete p.1))
    else (d.1, [])
  let st2 := match c.usage with
    | some u =>
        { fin.1 with usage :=
            { inputTokens := u.promptTokens, outputTokens := u.completionTokens,
              cacheReadTokens := u.cachedTokens } }
    | none => fin.1
  (st2, contentEvs ++ d.2 ++ fin.2)

/-- Modelled from the spec: `openai_compat.rs::finalize_stream` — completions
for all open tool calls in reassembly order, then `Done` with the
accumulated usage. -/
def finalizeStream (st : StreamingToolState) : List StreamEvent :=
  st.openCalls.map (fun p => StreamEvent.toolCallComplete p.1) ++
    [StreamEvent.done st.usage]

/-- The decode outcome of one `data:` line: terminal `[DONE]`, a parsed
chunk, or a skipped (malformed) line — `openai_compat.rs::SseLineResult`,
modelled from the spec with the chunk held structurally. -/
inductive SseItem where
  | done : SseItem
  | chunk (c : ChunkPayload) : SseItem
  | skip : SseItem
deriving Repr, DecidableEq

/-- The streaming driver of `openai.rs::stream_with_tools` (lines 570-611) at
`data:`-line granularity: lines are processed in order; on `[DONE]` the
stream finalizes and stops; when the byte stream ends (upstream EOF) without
a `[DONE]` line, the enclosing async stream block simply ends — no
finalization runs. -/
def runSse : List SseItem → StreamingToolState → List StreamEvent
  | [], _ => []
  | SseItem.done :: _, st => finalizeStream st
  | SseItem.chunk c :: rest, st =>
      let r := processChunk st c
      r.2 ++ runSse rest r.1
  | SseItem.skip :: rest, st => runSse rest st

/-- The decoder state at stream start: empty reassembly state, zero usage. -/
def initialStreamState : StreamingToolState := {}

/-- Run a whole stream from the initial state. -/
def runStream (items : List SseItem) : List StreamEvent :=
  runSse items initialStreamState

/-- Does the line sequence contain a `[DONE]` line? -/
def hasDone : List SseItem → Bool
  | [] => false
  | SseItem.done :: _ => true
  | _ :: rest => hasDone rest

/-- The decoder state after the lines before the first `[DONE]` (or all
lines, when the stream ends by EOF). -/
def stateUpTo : List SseItem → StreamingToolState → StreamingToolState
  | [], st => st
  | SseItem.done :: _, st => st
  | SseItem.chunk c :: rest, st => stateUpTo rest (processChunk st c).1
  | SseItem.skip :: rest, st => stateUpTo rest st

/-- The events emitted for the lines before the first `[DONE]`. -/
def eventsUpTo : List SseItem → StreamingToolState → List StreamEvent
  | [], _ => []
  | SseItem.done :: _, _ => []
  | SseItem.chunk c :: rest, st =>
      (processChunk st c).2 ++ eventsUpTo rest (processChunk st c).1
  | SseItem.skip :: rest, st => eventsUpTo rest st

/-- Is the event the terminal `Done`? -/
def isDoneEvent : StreamEvent → Bool
  | StreamEvent.done _ => true
  | _ => false

/-- Number of `Done` events in a sequence. -/
def countDoneEvents (evs : List StreamEvent) : Nat :=
  (evs.filter isDoneEvent).length

theorem startPart_no_done (st : StreamingToolState) (e : ToolCallDelta) :
    ∀ ev ∈ (startPart st e).2, isDoneEvent ev = false := by
  intro ev hev
  unfold startPart at hev
  split at hev
  · split at hev
    · simp at hev
    · simp at hev; subst hev; rfl
  · simp at hev

theorem argPart_no_done (st : StreamingToolState) (e : ToolCallDelta) :
    ∀ ev ∈ (argPart st e).2, isDoneEvent ev = false := by
  intro ev hev
  unfold argPart at hev
  split at hev
  · split at hev
    · simp at hev; subst hev; rfl
    · simp at hev
  · simp at hev

theorem processToolCallDelta_no_done (st : StreamingToolState) (e : ToolCallDelta) :
    ∀ ev ∈ (processToolCallDelta st e).2, isDoneEvent ev = false := by
  intro ev hev
  simp only [processToolCallDelta, List.mem_append] at hev
  rcases hev with h | h
  · exact startPart_no_done _ _ ev h
  · exact argPart_no_done _ _ ev h

theorem processDeltas_no_done :
    ∀ (es : List ToolCallDelta) (st : StreamingToolState),
      ∀ ev ∈ (processDeltas st es).2, isDoneEvent ev = false := by
  intro es
  induction es with
  | nil => intro st ev hev; simp [processDeltas] at hev
  | cons e rest ih =>
    intro st ev hev
    simp only [processDeltas, List.mem_append] at hev
    rcases hev with h | h
    · exact processToolCallDelta_no_done _ _ ev h
    · exact ih _ ev h

theorem processChunk_no_done (st : StreamingToolState) (c : ChunkPayload) :
    ∀ ev ∈ (processChunk st c).2, isDoneEvent ev = false := by
  intro ev hev
  simp only [processChunk, List.mem_append] at hev
  rcases hev with (h | h) | h
  · cases hc : c.content with
    | none => rw [hc] at h; simp at h
    | some s => rw [hc] at h; simp at h; subst h; rfl
  · exact processDeltas_no_done _ _ ev h
  · by_cases hfin : c.finishReason = some "tool_calls"
    · simp only [hfin, if_true] at h
      simp only [List.mem_map] at h
      obtain ⟨p, _, hp⟩ := h
      rw [← hp]; rfl
    · simp [hfin] at h

theorem eventsUpTo_no_done :
    ∀ (items : List SseItem) (st : StreamingToolState),
      ∀ ev ∈ eventsUpTo items st, isDoneEvent ev = false := by
  intro items
  induction items with
  | nil => intro st ev hev; simp [eventsUpTo] at hev
  | cons it rest ih =>
    intro st ev hev
    cases it with
    | done => simp [eventsUpTo] at hev
    | chunk c =>
      simp only [eventsUpTo, List.mem_append] at hev
      rcases hev with h | h
      · exact processChunk_no_done _ _ ev h
      · exact ih _ ev h
    | skip => exact ih _ ev (by simpa [eventsUpTo] using hev)

theorem runSse_eq_of_hasDone :
    ∀ (items : List SseItem) (st : StreamingToolState), hasDone items = true →
      runSse items st = eventsUpTo items st ++ finalizeStream (stateUpTo items st) := by
  intro items
  induction items with
  | nil => intro st h; simp [hasDone] at h
  | cons it rest ih =>
    intro st h
    cases it with
    | done => simp [runSse, eventsUpTo, stateUpTo]
    | chunk c =>
      have h2 : hasDone rest = true := by simpa [hasDone] using h
      simp [runSse, eventsUpTo, stateUpTo, ih _ h2]
    | skip =>
      have h2 : hasDone rest = true := by simpa [hasDone] using h
      simp [runSse, eventsUpTo, stateUpTo, ih _ h2]

theorem getLast?_append_singleton (l : List StreamEvent) (a : StreamEvent) :
    (l ++ [a]).getLast? = some a := by
  exact List.getLast?_concat l

theorem countDoneEvents_of_no_done {l : List StreamEvent}
    (h : ∀ ev ∈ l, isDoneEvent ev = false) : countDoneEvents l = 0 := by
  unfold countDoneEvents
  have : l.filter isDoneEvent = [] := by
    rw [List.filter_eq_nil_iff]
    intro a ha
    simp [h a ha]
  rw [this]
  rfl

theorem countDoneEvents_completes (ps : List (Nat × ToolBuf)) :
    countDoneEvents (ps.map (fun p => StreamEvent.toolCallComplete p.1)) = 0 := by
  apply countDoneEvents_of_no_done
  intro ev hev
  simp only [List.mem_map] at hev
  obtain ⟨p, _, hp⟩ := hev
  rw [← hp]; rfl

theorem countDoneEvents_append (a b : List StreamEvent) :
    countDoneEvents (a ++ b) = countDoneEvents a + countDoneEvents b := by
  unfold countDoneEvents
  rw [List.filter_append, List.length_append]

/-- C4 (amended): for a successful stream whose `data:` lines end with a
`[DONE]` line, the decoder's event sequence is the per-chunk events (which
contain no `Done`), then one `ToolCallComplete` per still-open tool-call
index in reassembly order, then exactly one `Done` carrying the accumulated
usage, and `Done` is the last event.  (When the stream instead ends by
upstream EOF without `[DONE]`, no finalization runs — see the
counterexample.) -/
theorem claim_C4_finalization_on_done (items : List SseItem)
    (st : StreamingToolState) (h : hasDone items = true) :
    runSse items st =
      eventsUpTo items st ++
        ((stateUpTo items st).openCalls.map
            (fun p => StreamEvent.toolCallComplete p.1) ++
          [StreamEvent.done (stateUpTo items st).usage]) ∧
    (∀ ev ∈ eventsUpTo items st, isDoneEvent ev = false) ∧
    countDoneEvents (runSse items st) = 1 ∧
    (runSse items st).getLast? =
      some (StreamEvent.done (stateUpTo items st).usage) := by
  have hrun := runSse_eq_of_hasDone items st h
  have hpre := eventsUpTo_no_done items st
  refine ⟨hrun, hpre, ?_, ?_⟩
  · rw [hrun]
    unfold finalizeStream
    rw [countDoneEvents_append, countDoneEvents_append,
      countDoneEvents_of_no_done hpre, countDoneEvents_completes]
    rfl
  · rw [hrun]
    unfold finalizeStream
    rw [← List.append_assoc]
    exact getLast?_append_singleton _ _

/-- A tool-call start entry for index 0, used in the C4 example streams. -/
def c4Delta : ToolCallDelta :=
  { index := 0, id := some "call_1", nm := some "tool_a" }

/-- A stream whose `data:` lines start one tool call and then end (upstream
EOF) without a `[DONE]` line. -/
def c4EofItems : List SseItem :=
  [SseItem.chunk { toolCallDeltas := [c4Delta] }]

/-- A stream like `c4EofItems` but properly terminated by `[DONE]`. -/
def c4DoneItems : List SseItem :=
  [SseItem.chunk { toolCallDeltas := [c4Delta] }, SseItem.done]

/-- C4 counterexample: on upstream EOF without a `[DONE]` line the driver
ends without finalizing: tool-call index 0 is still open, yet the whole
event sequence is just its `ToolCallStart` — no `ToolCallComplete` and no
`Done` event at all, so the sequence does not end with `Done`. -/
theorem claim_C4_counterexample :
    runStream c4EofItems = [StreamEvent.toolCallStart "call_1" "tool_a" 0] ∧
    (stateUpTo c4EofItems initialStreamState).openCalls ≠ [] ∧
    countDoneEvents (runStream c4EofItems) = 0 := by
  exact ⟨rfl, by decide, rfl⟩

theorem claim_C4_witness :
    hasDone c4DoneItems = true ∧
    (runSse c4DoneItems initialStreamState =
      eventsUpTo c4DoneItems initialStreamState ++
        ((stateUpTo c4DoneItems initialStreamState).openCalls.map
            (fun p => StreamEvent.toolCallComplete p.1) ++
          [StreamEvent.done (stateUpTo c4DoneItems initialStreamState).usage]) ∧
    (∀ ev ∈ eventsUpTo c4DoneItems initialStreamState, isDoneEvent ev = false) ∧
    countDoneEvents (runSse c4DoneItems initialStreamState) = 1 ∧
    (runSse c4DoneItems initialStreamState).getLast? =
      some (StreamEvent.done (stateUpTo c4DoneItems initialStreamState).usage)) :=
  ⟨rfl, claim_C4_finalization_on_done c4DoneItems initialStreamState rfl⟩

/-- ASCII lower-casing of one character. -/
def asciiLowerChar (c : Char) : Char :=
  if c.isUpper then Char.ofNat (c.toNat + 32) else c

/-- Case-insensitive ASCII string equality (`str::eq_ignore_ascii_case`). -/
def eqIgnoreAsciiCase (a b : String) : Bool :=
  a.toList.map asciiLowerChar == b.toList.map asciiLowerChar

/-- Does the list start with the pattern? -/
def listStartsWith : List Char → List Char → Bool
  | _, [] => true
  | [], _ :: _ => false
  | a :: as, b :: bs => a == b && listStartsWith as bs

/-- Does the list contain the pattern as a contiguous run? -/
def listContainsSeq (pat : List Char) : List Char → Bool
  | [] => pat.isEmpty
  | a :: rest => listStartsWith (a :: rest) pat || listContainsSeq pat rest

/-- Substring containment (`str::contains` with a literal pattern). -/
def strContainsSub (hay needle : String) : Bool :=
  listContainsSeq needle.toList hay.toList

/-- `openai.rs::requires_reasoning_content_on_tool_messages` (lines 375-379):
the provider-name label equals "moonshot" ignoring ASCII case, or the base
URL contains "moonshot.ai" or "moonshot.cn". -/
def requiresReasoningContentOnToolMessages (providerName baseUrl : String) : Bool :=
  eqIgnoreAsciiCase providerName "moonshot" ||
    strContainsSub baseUrl "moonshot.ai" || strContainsSub baseUrl "moonshot.cn"

/-- Wire form of one tool call inside an assistant message: an object with
`id`, `type: "function"` and `function.name` / `function.arguments`, the
arguments rendered to a JSON string (`runner.rs` lines 122-135,
spec section 6). -/
def toolCallToJson (tc : ToolCall) : Json :=
  Json.obj [("id", Json.str tc.id), ("type", Json.str "function"),
    ("function", Json.obj [("name", Json.str tc.name),
      ("arguments", Json.str tc.arguments.render)])]

/-- Modelled from the spec: `model.rs::ChatMessage::to_openai_value` — the
wire form role / content / tool_calls / tool_call_id of spec section 6.
Assistant content is present only when the message carries text and
`tool_calls` only when non-empty, matching the assistant shape `runner.rs`
constructs; no shape carries `reasoning_content`. -/
def Message.toOpenAiValue : Message → Json
  | .system c => Json.obj [("role", Json.str "system"), ("content", Json.str c)]
  | .user c => Json.obj [("role", Json.str "user"), ("content", Json.str c)]
  | .assistant c tcs =>
      Json.obj ([("role", Json.str "assistant")] ++
        (match c with
          | some s => [("content", Json.str s)]
          | none => []) ++
        (if tcs.isEmpty then []
         else [("tool_calls", Json.arr (tcs.map toolCallToJson))]))
  | .tool tcid c =>
      Json.obj [("role", Json.str "tool"), ("tool_call_id", Json.str tcid),
        ("content", Json.str c.render)]

/-- Per-message serialization of `openai.rs::serialize_messages_for_request`
(lines 381-420): outside the moonshot family the wire value passes through;
for moonshot, an assistant message with a non-empty `tool_calls` array gets
`content` defaulted to "" when absent and a `reasoning_content` string field
copying the textual content (or ""). -/
def serializeMessage (providerName baseUrl : String) (m : Message) : Json :=
  let value := m.toOpenAiValue
  if !requiresReasoningContentOnToolMessages providerName baseUrl then value
  else
    let isAssistant :=
      match value.getField "role" with
      | some (Json.str r) => r == "assistant"
      | _ => false
    let hasToolCalls :=
      match value.getField "tool_calls" with
      | some (Json.arr calls) => !calls.isEmpty
      | _ => false
    if !isAssistant || !hasToolCalls then value
    else
      let reasoningContent :=
        match value.getField "content" with
        | some (Json.str s) => s
        | _ => ""
      let value :=
        if (value.getField "content").isNone then
          value.setField "content" (Json.str "")
        else value
      if (value.getField "reasoning_content").isNone then
        value.setField "reasoning_content" (Json.str reasoningContent)
      else value

/-- `openai.rs::serialize_messages_for_request`: map the per-message
serialization over the history. -/
def serializeMessagesForRequest (providerName baseUrl : String)
    (messages : List Message) : List Json :=
  messages.map (serializeMessage providerName baseUrl)

/-- Modelled from the spec: `openai_compat.rs::to_openai_tools` — each tool
schema is wrapped in the provider envelope with type "function" unless the
input already matches that envelope, in which case it is passed through;
one output entry per input tool. -/
def toOpenAiTools (tools : List Json) : List Json :=
  tools.map (fun t =>
    match t.getField "type" with
    | some (Json.str s) =>
        if s == "function" then t
        else Json.obj [("type", Json.str "function"), ("function", t)]
    | _ => Json.obj [("type", Json.str "function"), ("function", t)])

/-- Request body of the non-streaming path (`openai.rs::complete`,
lines 450-458): model and serialized messages, plus a "tools" key only when
the tool list is non-empty. -/
def completeBody (model providerName baseUrl : String) (messages : List Message)
    (tools : List Json) : Json :=
  let body := Json.obj [("model", Json.str model),
    ("messages", Json.arr (serializeMessagesForRequest providerName baseUrl messages))]
  if tools.isEmpty then body
  else body.setField "tools" (Json.arr (toOpenAiTools tools))

/-- Request body of the streaming path (`openai.rs::stream_with_tools`,
lines 526-536): like the non-streaming body plus the stream flags. -/
def streamBody (model providerName baseUrl : String) (messages : List Message)
    (tools : List Json) : Json :=
  let body := Json.obj [("model", Json.str model),
    ("messages", Json.arr (serializeMessagesForRequest providerName baseUrl messages)),
    ("stream", Json.bool true),
    ("stream_options", Json.obj [("include_usage", Json.bool true)])]
  if tools.isEmpty then body
  else body.setField "tools" (Json.arr (toOpenAiTools tools))

/-- Is the message an assistant message with a non-empty tool-call list? -/
def isAssistantWithToolCalls : Message → Bool
  | Message.assistant _ tcs => !tcs.isEmpty
  | _ => false

/-- C7: when the provider is identified as the moonshot family, every
serialized assistant message carrying a non-empty `tool_calls` array has a
string field `reasoning_content` equal to the message's textual content or
"", and no other message shape gets the field; outside the moonshot family
no message gets it; both the non-streaming and streaming request bodies
embed exactly this serialization as their "messages" array. -/
theorem claim_C7_moonshot_reasoning (pnameA burlA pnameB burlB model : String)
    (messages : List Message) (tools : List Json) :
    (requiresReasoningContentOnToolMessages pnameA burlA = true →
      (∀ (c : Option String) (tcs : List ToolCall), tcs ≠ [] →
        (serializeMessage pnameA burlA (Message.assistant c tcs)).getField
            "reasoning_content" = some (Json.str (c.getD ""))) ∧
      (∀ m : Message, isAssistantWithToolCalls m = false →
        (serializeMessage pnameA burlA m).getField "reasoning_content" = none)) ∧
    (requiresReasoningContentOnToolMessages pnameB burlB = false →
      ∀ m : Message,
        (serializeMessage pnameB burlB m).getField "reasoning_content" = none) ∧
    (completeBody model pnameA burlA messages tools).getField "messages" =
      some (Json.arr (serializeMessagesForRequest pnameA burlA messages)) ∧
    (streamBody model pnameA burlA messages tools).getField "messages" =
      some (Json.arr (serializeMessagesForRequest pnameA burlA messages)) := by
  refine ⟨fun h => ⟨?_, ?_⟩, fun h m => ?_, ?_, ?_⟩
  · intro c tcs hne
    cases tcs with
    | nil => exact absurd rfl hne
    | cons t ts =>
      cases c with
      | none =>
        simp [serializeMessage, h, Message.toOpenAiValue, Json.getField,
          Json.setField, List.lookup]
      | some s =>
        simp [serializeMessage, h, Message.toOpenAiValue, Json.getField,
          Json.setField, List.lookup]
  · intro m hm
    cases m with
    | system c =>
      simp [serializeMessage, h, Message.toOpenAiValue, Json.getField, List.lookup]
    | user c =>
      simp [serializeMessage, h, Message.toOpenAiValue, Json.getField, List.lookup]
    | tool tcid c =>
      simp [serializeMessage, h, Message.toOpenAiValue, Json.getField, List.lookup]
    | assistant c tcs =>
      cases tcs with
      | nil =>
        cases c with
        | none =>
          simp [serializeMessage, h, Message.toOpenAiValue, Json.getField, List.lookup]
        | some s =>
          simp [serializeMessage, h, Message.toOpenAiValue, Json.getField, List.lookup]
      | cons t ts => simp [isAssistantWithToolCalls] at hm
  · cases m with
    | system c =>
      simp [serializeMessage, h, Message.toOpenAiValue, Json.getField, List.lookup]
    | user c =>
      simp [serializeMessage, h, Message.toOpenAiValue, Json.getField, List.lookup]
    | tool tcid c =>
      simp [serializeMessage, h, Message.toOpenAiValue, Json.getField, List.lookup]
    | assistant c tcs =>
      cases c with
      | none =>
        by_cases hte : tcs.isEmpty <;>
          simp [serializeMessage, h, Message.toOpenAiValue, hte, Json.getField,
            List.lookup]
      | some s =>
        by_cases hte : tcs.isEmpty <;>
          simp [serializeMessage, h, Message.toOpenAiValue, hte, Json.getField,
            List.lookup]
  · by_cases hte : tools.isEmpty <;>
      simp [completeBody, hte, Json.getField, Json.setField, List.lookup]
  · by_cases hte : tools.isEmpty <;>
      simp [streamBody, hte, Json.getField, Json.setField, List.lookup]

/-- An assistant tool call for the C7 witness. -/
def c7ToolCall : ToolCall := { id := "call_1", name := "exec", arguments := Json.null }

theorem claim_C7_witness :
    requiresReasoningContentOnToolMessages "moonshot" "https://api.moonshot.ai/v1" = true ∧
    (serializeMessage "moonshot" "https://api.moonshot.ai/v1"
        (Message.assistant none [c7ToolCall])).getField "reasoning_content" =
      some (Json.str "") ∧
    requiresReasoningContentOnToolMessages "openai" "https://api.openai.com/v1" = false ∧
    (serializeMessage "openai" "https://api.openai.com/v1"
        (Message.assistant none [c7ToolCall])).getField "reasoning_content" = none := by
  have h := claim_C7_moonshot_reasoning "moonshot" "https://api.moonshot.ai/v1"
    "openai" "https://api.openai.com/v1" "kimi-k2.5" [] []
  have h1 : requiresReasoningContentOnToolMessages "moonshot"
      "https://api.moonshot.ai/v1" = true := by decide
  have h3 : requiresReasoningContentOnToolMessages "openai"
      "https://api.openai.com/v1" = false := by decide
  exact ⟨h1, (h.1 h1).1 none [c7ToolCall] (List.cons_ne_nil _ _), h3,
    h.2.1 h3 (Message.assistant none [c7ToolCall])⟩

/-- C8: both request-body builders omit the "tools" key entirely when the
tool list is empty, and emit a "tools" array with exactly one entry per tool
when it is non-empty. -/
theorem claim_C8_tools_key_omission (model pname burl : String)
    (messages : List Message) (toolsN : List Json) :
    ((completeBody model pname burl messages []).getField "tools" = none ∧
     (streamBody model pname burl messages []).getField "tools" = none) ∧
    (toolsN ≠ [] →
      (completeBody model pname burl messages toolsN).getField "tools" =
        some (Json.arr (toOpenAiTools toolsN)) ∧
      (streamBody model pname burl messages toolsN).getField "tools" =
        some (Json.arr (toOpenAiTools toolsN)) ∧
      (toOpenAiTools toolsN).length = toolsN.length) := by
  constructor
  · constructor
    · simp [completeBody, Json.getField, List.lookup]
    · simp [streamBody, Json.getField, List.lookup]
  · intro hne
    have hte : toolsN.isEmpty = false := by
      cases toolsN with
      | nil => exact absurd rfl hne
      | cons t ts => rfl
    refine ⟨?_, ?_, by simp [toOpenAiTools]⟩
    · simp [completeBody, hte, Json.getField, Json.setField, List.lookup]
    · simp [streamBody, hte, Json.getField, Json.setField, List.lookup]

/-- A sample tool schema for the C8 witness. -/
def c8Tool : Json := Json.obj [("name", Json.str "create_skill")]

theorem claim_C8_witness :
    ((completeBody "gpt-4o" "openai" "b" [] []).getField "tools" = none ∧
     (streamBody "gpt-4o" "openai" "b" [] []).getField "tools" = none) ∧
    ((completeBody "gpt-4o" "openai" "b" [] [c8Tool]).getField "tools" =
       some (Json.arr (toOpenAiTools [c8Tool])) ∧
     (streamBody "gpt-4o" "openai" "b" [] [c8Tool]).getField "tools" =
       some (Json.arr (toOpenAiTools [c8Tool])) ∧
     (toOpenAiTools [c8Tool]).length = [c8Tool].length) := by
  have h := claim_C8_tools_key_omission "gpt-4o" "openai" "b" [] [c8Tool]
  exact ⟨h.1, h.2 (List.cons_ne_nil _ _)⟩

/-- Default container image (`sandbox.rs::DEFAULT_SANDBOX_IMAGE`). -/
def DEFAULT_SANDBOX_IMAGE : String := "ubuntu:25.10"

/-- Sandbox mode (`sandbox.rs::SandboxMode`). -/
inductive SandboxMode where
  | off : SandboxMode
  | nonMain : SandboxMode
  | all : SandboxMode
deriving Repr, DecidableEq

/-- Container lifecycle scope (`sandbox.rs::SandboxScope`). -/
inductive SandboxScope where
  | session : SandboxScope
  | agent : SandboxScope
  | shared : SandboxScope
deriving Repr, DecidableEq

/-- Sandbox configuration (`sandbox.rs::SandboxConfig`); only the fields the
router logic reads are modelled (mode, scope, image, container_prefix). -/
structure SandboxConfig where
  mode : SandboxMode := SandboxMode.all
  scope : SandboxScope := SandboxScope.session
  image : Option String := none
  containerPrefix : Option String := none
deriving Repr, DecidableEq

/-- Sandbox identity (`sandbox.rs::SandboxId`). -/
structure SandboxId where
  scope : SandboxScope
  key : String
deriving Repr, DecidableEq

/-- `HashMap::insert` on an association list: replace an existing binding or
append a new one. -/
def assocInsert {β : Type} (m : List (String × β)) (k : String) (v : β) :
    List (String × β) :=
  if (m.lookup k).isSome then m.map (fun p => if p.1 = k then (p.1, v) else p)
  else m ++ [(k, v)]

/-- `HashMap::remove` on an association list. -/
def assocRemove {β : Type} : List (String × β) → String → List (String × β)
  | [], _ => []
  | p :: rest, k => if p.1 = k then assocRemove rest k else p :: assocRemove rest k

/-- Router state (`sandbox.rs::SandboxRouter`): the global config plus the
mutable per-session override maps and the runtime global image override.
The backend handle performs external I/O; the identity handed to it is made
explicit in `cleanupSession`. -/
structure SandboxRouter where
  config : SandboxConfig := {}
  overrides : List (String × Bool) := []
  imageOverrides : List (String × String) := []
  globalImageOverride : Option String := none
deriving Repr, DecidableEq

/-- `SandboxRouter::is_sandboxed` (lines 678-687): the per-session override
wins; otherwise the global mode decides (`NonMain` sandboxes every key other
than "main"). -/
def SandboxRouter.isSandboxed (r : SandboxRouter) (sessionKey : String) : Bool :=
  match r.overrides.lookup sessionKey with
  | some v => v
  | none =>
      match r.config.mode with
      | SandboxMode.off => false
      | SandboxMode.all => true
      | SandboxMode.nonMain => sessionKey != "main"

/-- `SandboxRouter::set_override`. -/
def SandboxRouter.setOverride (r : SandboxRouter) (sessionKey : String)
    (enabled : Bool) : SandboxRouter :=
  { r with overrides := assocInsert r.overrides sessionKey enabled }

/-- `SandboxRouter::remove_override`. -/
def SandboxRouter.removeOverride (r : SandboxRouter) (sessionKey : String) :
    SandboxRouter :=
  { r with overrides := assocRemove r.overrides sessionKey }

/-- `SandboxRouter::sandbox_id_for` key sanitization: every character other
than ASCII alphanumerics, dash, underscore and dot becomes a dash. -/
def sanitizeKey (s : String) : String :=
  String.mk (s.toList.map (fun c =>
    if c.isAlphanum || c = '-' || c = '_' || c = '.' then c else '-'))

/-- `SandboxRouter::sandbox_id_for` (lines 704-719). -/
def SandboxRouter.sandboxIdFor (r : SandboxRouter) (sessionKey : String) :
    SandboxId :=
  { scope := r.config.scope, key := sanitizeKey sessionKey }

/-- `SandboxRouter::cleanup_session` (lines 722-727): clean up the backend
resources for the session's sandbox id and remove the per-session sandbox
override.  The backend call is external I/O; the first component is the id
passed to `backend.cleanup`. -/
def SandboxRouter.cleanupSession (r : SandboxRouter) (sessionKey : String) :
    SandboxId × SandboxRouter :=
  (r.sandboxIdFor sessionKey, r.removeOverride sessionKey)

/-- `SandboxRouter::set_image_override`. -/
def SandboxRouter.setImageOverride (r : SandboxRouter) (sessionKey img : String) :
    SandboxRouter :=
  { r with imageOverrides := assocInsert r.imageOverrides sessionKey img }

/-- `SandboxRouter::remove_image_override`. -/
def SandboxRouter.removeImageOverride (r : SandboxRouter) (sessionKey : String) :
    SandboxRouter :=
  { r with imageOverrides := assocRemove r.imageOverrides sessionKey }

/-- `SandboxRouter::set_global_image`. -/
def SandboxRouter.setGlobalImage (r : SandboxRouter) (img : Option String) :
    SandboxRouter :=
  { r with globalImageOverride := img }

/-- `SandboxRouter::default_image` (lines 769-777): runtime global override,
else config image, else the compile-time default. -/
def SandboxRouter.defaultImage (r : SandboxRouter) : String :=
  match r.globalImageOverride with
  | some img => img
  | none => r.config.image.getD DEFAULT_SANDBOX_IMAGE

/-- `SandboxRouter::resolve_image` (lines 787-795): skill image, else
per-session image override, else `default_image`. -/
def SandboxRouter.resolveImage (r : SandboxRouter) (sessionKey : String)
    (skillImage : Option String) : String :=
  match skillImage with
  | some img => img
  | none =>
      match r.imageOverrides.lookup sessionKey with
      | some img => img
      | none => r.defaultImage

/-- The first defined value in a priority list, else the default — the
claim's own formulation of image resolution. -/
def firstDefined : List (Option String) → String → String
  | [], d => d
  | some v :: _, _ => v
  | none :: rest, d => firstDefined rest d

/-- The claim's priority chain stated in its own words: skill image, then
per-session override, then runtime global override, then config image, then
the compile-time default. -/
def resolveImageSpec (skill perSession glob cfg : Option String) : String :=
  firstDefined [skill, perSession, glob, cfg] DEFAULT_SANDBOX_IMAGE

/-- C5: `resolve_image` returns the first defined value in the order skill
image, per-session override, runtime global override, config image,
compile-time default; and while a higher-priority level is set, changing any
lower-priority level does not change the result. -/
theorem claim_C5_image_priority (r : SandboxRouter) (k : String)
    (s : Option String) :
    (r.resolveImage k s =
      resolveImageSpec s (r.imageOverrides.lookup k) r.globalImageOverride
        r.config.image) ∧
    (∀ (r2 : SandboxRouter) (i : String),
      r.resolveImage k (some i) = i ∧ r2.resolveImage k (some i) = i) ∧
    (∀ img glob cfg, r.imageOverrides.lookup k = some img →
      SandboxRouter.resolveImage
        { r with globalImageOverride := glob,
                 config := { r.config with image := cfg } } k none = img) ∧
    (∀ g cfg, r.imageOverrides.lookup k = none →
      SandboxRouter.resolveImage
        { r with globalImageOverride := some g,
                 config := { r.config with image := cfg } } k none = g) ∧
    (∀ c, r.imageOverrides.lookup k = none → r.globalImageOverride = none →
      SandboxRouter.resolveImage
        { r with config := { r.config with image := some c } } k none = c) ∧
    (r.imageOverrides.lookup k = none → r.globalImageOverride = none →
      r.config.image = none → r.resolveImage k none = DEFAULT_SANDBOX_IMAGE) := by
  refine ⟨?_, fun r2 i => ⟨rfl, rfl⟩, ?_, ?_, ?_, ?_⟩
  · cases s with
    | some i => rfl
    | none =>
      cases hl : r.imageOverrides.lookup k with
      | some img =>
        simp [SandboxRouter.resolveImage, resolveImageSpec, firstDefined, hl]
      | none =>
        cases hg : r.globalImageOverride with
        | some g =>
          simp [SandboxRouter.resolveImage, SandboxRouter.defaultImage,
            resolveImageSpec, firstDefined, hl, hg]
        | none =>
          cases hc : r.config.image with
          | some c =>
            simp [SandboxRouter.resolveImage, SandboxRouter.defaultImage,
              resolveImageSpec, firstDefined, hl, hg, hc]
          | none =>
            simp [SandboxRouter.resolveImage, SandboxRouter.defaultImage,
              resolveImageSpec, firstDefined, hl, hg, hc]
  · intro img glob cfg hl
    simp [SandboxRouter.resolveImage, hl]
  · intro g cfg hl
    simp [SandboxRouter.resolveImage, SandboxRouter.defaultImage, hl]
  · intro c hl hg
    simp [SandboxRouter.resolveImage, SandboxRouter.defaultImage, hl, hg]
  · intro hl hg hc
    simp [SandboxRouter.resolveImage, SandboxRouter.defaultImage, hl, hg, hc]

/-- A router with a per-session image override for "sess1", for witnesses. -/
def c5Router : SandboxRouter :=
  { config := { image := some "my-org/image:v1" },
    imageOverrides := [("sess1", "custom:latest")] }

theorem claim_C5_witness :
    (c5Router.resolveImage "sess1" (some "cache/skill:h") =
      resolveImageSpec (some "cache/skill:h")
        (c5Router.imageOverrides.lookup "sess1") c5Router.globalImageOverride
        c5Router.config.image) ∧
    c5Router.resolveImage "sess1" (some "cache/skill:h") = "cache/skill:h" ∧
    SandboxRouter.resolveImage
      { c5Router with globalImageOverride := some "glob:1",
                      config := { c5Router.config with image := some "cfg:2" } }
      "sess1" none = "custom:latest" := by
  have h := claim_C5_image_priority c5Router "sess1" (some "cache/skill:h")
  exact ⟨h.1, (h.2.1 c5Router "cache/skill:h").1,
    h.2.2.1 "custom:latest" (some "glob:1") (some "cfg:2") rfl⟩

theorem assocRemove_lookup_none {β : Type} (m : List (String × β)) (k : String) :
    (assocRemove m k).lookup k = none := by
  induction m with
  | nil => rfl
  | cons p rest ih =>
    by_cases h : p.1 = k
    · simpa [assocRemove, h] using ih
    · simp only [assocRemove, h, if_false]
      have hb : (k == p.1) = false := by
        rw [beq_eq_false_iff_ne]
        exact fun hk => h hk.symm
      simp [List.lookup, hb, ih]

/-- A router holding both kinds of per-session override for "sess1". -/
def c9Router : SandboxRouter :=
  { config := { mode := SandboxMode.off },
    overrides := [("sess1", true)],
    imageOverrides := [("sess1", "custom:latest")] }

/-- C9 counterexample: after `cleanup_session("sess1")` the per-session
image override is still stored and `resolve_image("sess1", None)` still
returns it — the claim that every per-session override is removed and no
per-session image override survives is false on the code. -/
theorem claim_C9_counterexample :
    ((c9Router.cleanupSession "sess1").2.imageOverrides.lookup "sess1" =
      some "custom:latest") ∧
    (c9Router.cleanupSession "sess1").2.resolveImage "sess1" none =
      "custom:latest" ∧
    "custom:latest" ≠ DEFAULT_SANDBOX_IMAGE := by
  refine ⟨rfl, rfl, by decide⟩

/-- C9 (amended): `cleanup_session(k)` passes `sandbox_id_for(k)` to
`backend.cleanup` and removes the per-session sandbox on/off override — so
`is_sandboxed(k)` is afterwards decided solely by the global mode — but the
per-session image overrides are left untouched. -/
theorem claim_C9_cleanup_removes_sandbox_override (r : SandboxRouter)
    (k : String) :
    (r.cleanupSession k).1 = r.sandboxIdFor k ∧
    (r.cleanupSession k).2.overrides.lookup k = none ∧
    ((r.cleanupSession k).2.isSandboxed k =
      match r.config.mode with
      | SandboxMode.off => false
      | SandboxMode.all => true
      | SandboxMode.nonMain => k != "main") ∧
    (r.cleanupSession k).2.imageOverrides = r.imageOverrides ∧
    (r.cleanupSession k).2.globalImageOverride = r.globalImageOverride := by
  refine ⟨rfl, assocRemove_lookup_none r.overrides k, ?_, rfl, rfl⟩
  unfold SandboxRouter.isSandboxed
  rw [show (r.cleanupSession k).2.overrides = assocRemove r.overrides k from rfl,
    assocRemove_lookup_none]
  rfl

/-- Execution options (`exec.rs::ExecOpts`; shape fixed by its uses in
`sandbox.rs`: working_dir, env, wall-clock timeout, max_output_bytes).  The
timeout is held in whole seconds, as rendered by the timeout messages. -/
structure ExecOpts where
  workingDir : Option String := none
  env : List (String × String) := []
  timeoutSecs : Nat := 30
  maxOutputBytes : Nat := 1000000
deriving Repr, DecidableEq

/-- Result of a sandboxed command (`exec.rs::ExecResult`, shape fixed by
`sandbox.rs`).  The output strings hold one character per byte of the
lossy-UTF-8 decoding. -/
structure ExecResult where
  stdout : String
  stderr : String
  exitCode : Int
deriving Repr, DecidableEq

/-- Outcome of awaiting the spawned child under `tokio::time::timeout`: the
command finished within the timeout (captured output and `status.code()`,
which is `none` when the child was killed by a signal), the wait failed with
an I/O error, or the timer expired. -/
inductive WaitOutcome where
  | completed (stdout stderr : String) (exitCode : Option Int) : WaitOutcome
  | ioError (msg : String) : WaitOutcome
  | timedOut : WaitOutcome
deriving Repr, DecidableEq

/-- Marker appended to truncated output. -/
def TRUNCATION_MARKER : String := "\n... [output truncated]"

/-- `stdout.truncate(max_output_bytes)` followed by pushing the marker, done
only when the output exceeds the limit (`sandbox.rs` lines 257-264). -/
def truncateOutput (maxBytes : Nat) (s : String) : String :=
  if s.length > maxBytes then String.mk (s.toList.take maxBytes) ++ TRUNCATION_MARKER
  else s

/-- The output discipline shared verbatim by the backend `exec`
implementations: truncate both streams, take the child's exit code or -1
when unknown, fail on I/O error or timer expiry with the backend-specific
message. -/
def execOutcome (backendLabel : String) (opts : ExecOpts) :
    WaitOutcome → Except String ExecResult
  | WaitOutcome.completed out err code =>
      .ok { stdout := truncateOutput opts.maxOutputBytes out,
            stderr := truncateOutput opts.maxOutputBytes err,
            exitCode := code.getD (-1) }
  | WaitOutcome.ioError e => .error (backendLabel ++ " exec failed: " ++ e)
  | WaitOutcome.timedOut =>
      .error (backendLabel ++ " exec timed out after " ++
        toString opts.timeoutSecs ++ "s")

/-- `DockerSandbox::exec` result handling (`sandbox.rs` lines 250-274). -/
def dockerExecResult (opts : ExecOpts) (w : WaitOutcome) :
    Except String ExecResult :=
  execOutcome "docker" opts w

/-- `CgroupSandbox::exec` result handling (`sandbox.rs` lines 394-421). -/
def cgroupExecResult (opts : ExecOpts) (w : WaitOutcome) :
    Except String ExecResult :=
  execOutcome "systemd-run" opts w

/-- `AppleContainerSandbox::exec` result handling (`sandbox.rs`
lines 517-563, macOS build). -/
def appleExecResult (opts : ExecOpts) (w : WaitOutcome) :
    Except String ExecResult :=
  execOutcome "container" opts w

/-- Modelled from the spec: `exec.rs::exec_command`, the direct backend's
exec that `NoSandbox::exec` delegates to (`sandbox.rs` lines 300-302) —
spawn `sh -c command`, capture stdout/stderr, truncate each to
`max_output_bytes` appending the marker, return the child's exit code or -1
if signalled, and fail if the timer expires (spec section 4.B).  The spec
fixes no message text for its failures; the command interpreter `sh` is
used as the label, and the theorem states nothing about the direct
backend's message text. -/
def directExecResult (opts : ExecOpts) (w : WaitOutcome) :
    Except String ExecResult :=
  execOutcome "sh" opts w

/-- C6: for every sandbox backend's exec — Docker, cgroup, Apple Container,
and the direct backend (spec-modelled `exec_command`) — when the command
finishes within the timeout each output stream is returned unchanged when
within `max_output_bytes` and otherwise cut to `max_output_bytes` with the
marker "\n... [output truncated]" appended, and the exit code is the
child's code or -1 when unknown; when the timer expires, exec returns an
error and never a result (in particular never exit code 0). -/
theorem claim_C6_exec_output_contract (opts : ExecOpts) (out err : String)
    (code : Option Int) :
    (∀ res, dockerExecResult opts (WaitOutcome.completed out err code) = .ok res →
      (out.length ≤ opts.maxOutputBytes → res.stdout = out) ∧
      (out.length > opts.maxOutputBytes →
        res.stdout = String.mk (out.toList.take opts.maxOutputBytes) ++
          TRUNCATION_MARKER) ∧
      (err.length ≤ opts.maxOutputBytes → res.stderr = err) ∧
      (err.length > opts.maxOutputBytes →
        res.stderr = String.mk (err.toList.take opts.maxOutputBytes) ++
          TRUNCATION_MARKER) ∧
      res.exitCode = code.getD (-1)) ∧
    (∃ res, dockerExecResult opts (WaitOutcome.completed out err code) = .ok res) ∧
    dockerExecResult opts WaitOutcome.timedOut =
      .error ("docker exec timed out after " ++ toString opts.timeoutSecs ++ "s") ∧
    (∀ res, dockerExecResult opts WaitOutcome.timedOut ≠ .ok res) ∧
    (∀ res, cgroupExecResult opts (WaitOutcome.completed out err code) = .ok res →
      (out.length ≤ opts.maxOutputBytes → res.stdout = out) ∧
      (out.length > opts.maxOutputBytes →
        res.stdout = String.mk (out.toList.take opts.maxOutputBytes) ++
          TRUNCATION_MARKER) ∧
      (err.length ≤ opts.maxOutputBytes → res.stderr = err) ∧
      (err.length > opts.maxOutputBytes →
        res.stderr = String.mk (err.toList.take opts.maxOutputBytes) ++
          TRUNCATION_MARKER) ∧
      res.exitCode = code.getD (-1)) ∧
    cgroupExecResult opts WaitOutcome.timedOut =
      .error ("systemd-run exec timed out after " ++
        toString opts.timeoutSecs ++ "s") ∧
    (∀ res, cgroupExecResult opts WaitOutcome.timedOut ≠ .ok res) ∧
    appleExecResult opts (WaitOutcome.completed out err code) =
      dockerExecResult opts (WaitOutcome.completed out err code) ∧
    appleExecResult opts WaitOutcome.timedOut =
      .error ("container exec timed out after " ++
        toString opts.timeoutSecs ++ "s") ∧
    (∀ res, appleExecResult opts WaitOutcome.timedOut ≠ .ok res) ∧
    directExecResult opts (WaitOutcome.completed out err code) =
      dockerExecResult opts (WaitOutcome.completed out err code) ∧
    (∃ msg, directExecResult opts WaitOutcome.timedOut = .error msg) ∧
    (∀ res, directExecResult opts WaitOutcome.timedOut ≠ .ok res) := by
  have hcompleted : ∀ res,
      execOutcome "docker" opts (WaitOutcome.completed out err code) = .ok res →
      (out.length ≤ opts.maxOutputBytes → res.stdout = out) ∧
      (out.length > opts.maxOutputBytes →
        res.stdout = String.mk (out.toList.take opts.maxOutputBytes) ++
          TRUNCATION_MARKER) ∧
      (err.length ≤ opts.maxOutputBytes → res.stderr = err) ∧
      (err.length > opts.maxOutputBytes →
        res.stderr = String.mk (err.toList.take opts.maxOutputBytes) ++
          TRUNCATION_MARKER) ∧
      res.exitCode = code.getD (-1) := by
    intro res hres
    injection hres with hres
    subst hres
    refine ⟨fun hle => ?_, fun hgt => ?_, fun hle => ?_, fun hgt => ?_, rfl⟩
    · simp [truncateOutput, Nat.not_lt.mpr hle]
    · simp [truncateOutput, hgt]
    · simp [truncateOutput, Nat.not_lt.mpr hle]
    · simp [truncateOutput, hgt]
  have hcompleted2 : ∀ res,
      execOutcome "systemd-run" opts (WaitOutcome.completed out err code) = .ok res →
      (out.length ≤ opts.maxOutputBytes → res.stdout = out) ∧
      (out.length > opts.maxOutputBytes →
        res.stdout = String.mk (out.toList.take opts.maxOutputBytes) ++
          TRUNCATION_MARKER) ∧
      (err.length ≤ opts.maxOutputBytes → res.stderr = err) ∧
      (err.length > opts.maxOutputBytes →
        res.stderr = String.mk (err.toList.take opts.maxOutputBytes) ++
          TRUNCATION_MARKER) ∧
      res.exitCode = code.getD (-1) := by
    intro res hres
    injection hres with hres
    subst hres
    refine ⟨fun hle => ?_, fun hgt => ?_, fun hle => ?_, fun hgt => ?_, rfl⟩
    · simp [truncateOutput, Nat.not_lt.mpr hle]
    · simp [truncateOutput, hgt]
    · simp [truncateOutput, Nat.not_lt.mpr hle]
    · simp [truncateOutput, hgt]
  exact ⟨hcompleted, ⟨_, rfl⟩, rfl, fun res h => Except.noConfusion h,
    hcompleted2, rfl, fun res h => Except.noConfusion h, rfl, rfl,
    fun res h => Except.noConfusion h, rfl, ⟨_, rfl⟩,
    fun res h => Except.noConfusion h⟩

theorem claim_C6_witness :
    (dockerExecResult { maxOutputBytes := 4 }
        (WaitOutcome.completed "abcdefg" "098" (some 3))).toOption =
      some { stdout := "abcd" ++ TRUNCATION_MARKER, stderr := "098",
             exitCode := 3 } ∧
    ("abcdefg".length > 4 →
      ∀ res, dockerExecResult { maxOutputBytes := 4 }
          (WaitOutcome.completed "abcdefg" "098" (some 3)) = .ok res →
        res.stdout = String.mk ("abcdefg".toList.take 4) ++ TRUNCATION_MARKER) ∧
    (∀ res, dockerExecResult { maxOutputBytes := 4 } WaitOutcome.timedOut ≠
      .ok res) := by
  have h := claim_C6_exec_output_contract { maxOutputBytes := 4 } "abcdefg" "098"
    (some 3)
  refine ⟨by decide, fun _ res hres => (h.1 res hres).2.1 (by decide), h.2.2.2.1⟩

end Moltis
